import Mathlib

/-!
# Verification of the proxycache prefix-similarity cache engine

Shallow embedding of the proxycache repository (`hashing.py`, `app.py`,
`slot_manager.py`, `llama_client.py`, `config.py`) in Lean 4, together with
theorems settling the specification claims about it.

Conventions of the embedding:

* Python `str` is Lean `String`; byte strings are `List Nat` (each < 256).
* SHA-256 is implemented concretely (`sha256Hex`), operating on the UTF-8
  bytes of the input, exactly as `hashlib.sha256(x.encode("utf-8")).hexdigest()`.
* Python float thresholds and ratios are modelled as exact rationals `ℚ`.
* `asyncio.Lock` is modelled by a `lockHolder : Option Nat` field: `none` means
  unlocked, `some r` means held by request `r`.  `await lock.acquire()` on a
  free lock acquires immediately; on a held lock (the blocking paths of
  `acquire_free_or_cold_slot`) it is modelled as the eventual acquisition.
* `self._bindings : Dict[int, SlotBinding]` is an insertion-ordered
  association list, matching Python dict iteration order: updating an
  existing key keeps its position, a new key is appended.
* Backend HTTP calls made by `ensure_slot_for_request` are recorded in an
  explicit effect trace (`Effect`), and the result of the restore call is a
  `Bool` parameter threaded in from `LlamaClient.restore_slot`.
-/

namespace ProxyCache

/-! ## SHA-256 (as used by `hashlib.sha256(...).hexdigest()`) -/

/-- 2^32, the word modulus of SHA-256. -/
def M32 : Nat := 4294967296

/-- Addition modulo 2^32. -/
def add32 (a b : Nat) : Nat := (a + b) % M32

/-- Bitwise XOR (operands are < 2^32 throughout). -/
def xor32 (a b : Nat) : Nat := Nat.xor a b

/-- Bitwise AND. -/
def and32 (a b : Nat) : Nat := Nat.land a b

/-- Bitwise complement on 32-bit words. -/
def not32 (a : Nat) : Nat := Nat.xor a 4294967295

/-- Logical right shift. -/
def shr32 (n a : Nat) : Nat := a >>> n

/-- Right rotation of a 32-bit word by `n` bits. -/
def rotr32 (n a : Nat) : Nat := Nat.lor (a >>> n) ((a <<< (32 - n)) % M32)

/-- SHA-256 `Ch` function. -/
def shaCh (x y z : Nat) : Nat := xor32 (and32 x y) (and32 (not32 x) z)

/-- SHA-256 `Maj` function. -/
def shaMaj (x y z : Nat) : Nat := xor32 (xor32 (and32 x y) (and32 x z)) (and32 y z)

/-- SHA-256 big sigma 0. -/
def bigSigma0 (x : Nat) : Nat := xor32 (xor32 (rotr32 2 x) (rotr32 13 x)) (rotr32 22 x)

/-- SHA-256 big sigma 1. -/
def bigSigma1 (x : Nat) : Nat := xor32 (xor32 (rotr32 6 x) (rotr32 11 x)) (rotr32 25 x)

/-- SHA-256 small sigma 0. -/
def smallSigma0 (x : Nat) : Nat := xor32 (xor32 (rotr32 7 x) (rotr32 18 x)) (shr32 3 x)

/-- SHA-256 small sigma 1. -/
def smallSigma1 (x : Nat) : Nat := xor32 (xor32 (rotr32 17 x) (rotr32 19 x)) (shr32 10 x)

/-- The 64 SHA-256 round constants. -/
def K256 : List Nat :=
  [1116352408, 1899447441, 3049323471, 3921009573, 961987163,
   1508970993, 2453635748, 2870763221, 3624381080, 310598401,
   607225278, 1426881987, 1925078388, 2162078206, 2614888103,
   3248222580, 3835390401, 4022224774, 264347078, 604807628,
   770255983, 1249150122, 1555081692, 1996064986, 2554220882,
   2821834349, 2952996808, 3210313671, 3336571891, 3584528711,
   113926993, 338241895, 666307205, 773529912, 1294757372,
   1396182291, 1695183700, 1986661051, 2177026350, 2456956037,
   2730485921, 2820302411, 3259730800, 3345764771, 3516065817,
   3600352804, 4094571909, 275423344, 430227734, 506948616,
   659060556, 883997877, 958139571, 1322822218, 1537002063,
   1747873779, 1955562222, 2024104815, 2227730452, 2361852424,
   2428436474, 2756734187, 3204031479, 3329325298]

/-- The SHA-256 initial hash value. -/
def H256 : List Nat :=
  [1779033703, 3144134277, 1013904242, 2773480762,
   1359893119, 2600822924, 528734635, 1541459225]

/-- Big-endian byte encoding of `v` on `n` bytes. -/
def toBytesBE : Nat → Nat → List Nat
  | 0, _ => []
  | n + 1, v => toBytesBE n (v / 256) ++ [v % 256]

/-- SHA-256 message padding: append `0x80`, zeros to 56 mod 64, then the
bit length on 8 big-endian bytes. -/
def padMessage (msg : List Nat) : List Nat :=
  let L := msg.length
  let padZeros := (119 - (L % 64)) % 64
  msg ++ [0x80] ++ List.replicate padZeros 0 ++ toBytesBE 8 (8 * L)

/-- Group bytes into big-endian 32-bit words. -/
def bytesToWords : List Nat → List Nat
  | b0 :: b1 :: b2 :: b3 :: rest => (((b0 * 256 + b1) * 256 + b2) * 256 + b3) :: bytesToWords rest
  | _ => []

/-- Fuel-indexed worker for `chunksOf`; the fuel is an upper bound on the
list length, so the fuel-exhausted branch is unreachable. -/
def chunksOfAux (n : Nat) : Nat → List α → List (List α)
  | _, [] => []
  | 0, _ :: _ => []
  | fuel + 1, x :: xs =>
    if n = 0 then [] else (x :: xs).take n :: chunksOfAux n fuel ((x :: xs).drop n)

/-- Split a list into consecutive chunks of size `n` (the last may be short);
returns `[]` when `n = 0`.  This is the model of the Python slicing loop
`for i in range(0, len(l), n): l[i:i+n]` (which requires `n ≥ 1`). -/
def chunksOf (n : Nat) (l : List α) : List (List α) := chunksOfAux n l.length l

/-- Extend the 16 message-schedule words to 64. -/
def scheduleAux : Nat → List Nat → List Nat
  | 0, w => w
  | n + 1, w =>
    let t := w.length
    let nw := add32 (add32 (smallSigma1 (w.getD (t - 2) 0)) (w.getD (t - 7) 0))
                    (add32 (smallSigma0 (w.getD (t - 15) 0)) (w.getD (t - 16) 0))
    scheduleAux n (w ++ [nw])

/-- The 64-word message schedule of one block. -/
def schedule (block : List Nat) : List Nat := scheduleAux 48 block

/-- One SHA-256 compression round. -/
def compressRound (W : List Nat) (t : Nat) (s : List Nat) : List Nat :=
  match s with
  | [a, b, c, d, e, f, g, h] =>
    let T1 := add32 h (add32 (bigSigma1 e) (add32 (shaCh e f g) (add32 (K256.getD t 0) (W.getD t 0))))
    let T2 := add32 (bigSigma0 a) (shaMaj a b c)
    [add32 T1 T2, a, b, c, add32 d T1, e, f, g]
  | _ => s

/-- Compress one 16-word block into the running hash state. -/
def compressBlock (h : List Nat) (block : List Nat) : List Nat :=
  let W := schedule block
  let s := (List.range 64).foldl (fun s t => compressRound W t s) h
  match h, s with
  | [h0, h1, h2, h3, h4, h5, h6, h7], [a, b, c, d, e, f, g, hh] =>
    [add32 h0 a, add32 h1 b, add32 h2 c, add32 h3 d,
     add32 h4 e, add32 h5 f, add32 h6 g, add32 h7 hh]
  | _, _ => h

/-- SHA-256 of a byte list, as eight 32-bit words. -/
def sha256Words (msg : List Nat) : List Nat :=
  (chunksOf 16 (bytesToWords (padMessage msg))).foldl compressBlock H256

/-- Lowercase hex digit. -/
def hexChar (n : Nat) : Char := if n < 10 then Char.ofNat (48 + n) else Char.ofNat (87 + n)

/-- Eight lowercase hex digits of a 32-bit word, most significant first. -/
def wordToHex (w : Nat) : List Char :=
  (List.range 8).map (fun i => hexChar ((w >>> (28 - 4 * i)) % 16))

/-- SHA-256 hex digest of a byte list: `hashlib.sha256(bytes).hexdigest()`. -/
def sha256Hex (msg : List Nat) : String :=
  String.mk (((sha256Words msg).map wordToHex).flatten)

/-- UTF-8 encoding of one Unicode code point. -/
def utf8EncodeChar (c : Char) : List Nat :=
  let n := c.toNat
  if n < 128 then [n]
  else if n < 2048 then [192 + n / 64, 128 + n % 64]
  else if n < 65536 then [224 + n / 4096, 128 + (n / 64) % 64, 128 + n % 64]
  else [240 + n / 262144, 128 + (n / 4096) % 64, 128 + (n / 64) % 64, 128 + n % 64]

/-- UTF-8 bytes of a string: Python `s.encode("utf-8")`. -/
def utf8Bytes (s : String) : List Nat := (s.data.map utf8EncodeChar).flatten

/-- SHA-256 hex digest of the UTF-8 encoding of a string. -/
def sha256OfString (t : String) : String := sha256Hex (utf8Bytes t)

/-! ## hashing.py -/

/-- Python `re` word character, restricted to ASCII: `[a-zA-Z0-9_]`.
(`hashing.words_from_text` uses `re.findall(r"\w+", ...)`; the claims under
verification do not depend on non-ASCII word characters.) -/
def wordChar (c : Char) : Bool := c.isAlphanum || c == '_'

/-- Split a character list into its maximal leading run of word characters
and the rest. -/
def splitWord : List Char → List Char × List Char
  | [] => ([], [])
  | c :: cs =>
    if wordChar c then
      let p := splitWord cs
      (c :: p.1, p.2)
    else ([], c :: cs)

/-- Fuel-indexed tokenizer: maximal runs of word characters, in order.
The fuel is an upper bound on the list length, so exhaustion is unreachable. -/
def tokenizeAux : Nat → List Char → List String
  | _, [] => []
  | 0, _ :: _ => []
  | fuel + 1, c :: cs =>
    if wordChar c then
      let p := splitWord cs
      String.mk (c :: p.1) :: tokenizeAux fuel p.2
    else tokenizeAux fuel cs

/-- hashing.words_from_text: `re.findall(r"\w+", text.lower())`.
Lowercasing is ASCII (`Char.toLower`), as is the word-character class. -/
def words_from_text (s : String) : List String :=
  tokenizeAux s.data.length (s.data.map Char.toLower)

/-- hashing.block_hashes_from_text: hash each consecutive run of `wpb`
lowercased word tokens (space-joined, UTF-8) with SHA-256; the last block may
be short. -/
def block_hashes_from_text (text : String) (wpb : Nat) : List String :=
  (chunksOf wpb (words_from_text text)).map
    (fun block => sha256OfString (String.intercalate " " block))

/-- hashing.lcp_blocks: number of leading positions where the two hash
sequences agree. -/
def lcp_blocks : List String → List String → Nat
  | a :: as, b :: bs => if a = b then lcp_blocks as bs + 1 else 0
  | _, _ => 0

/-- hashing.prefix_key_sha256: `hashlib.sha256(text.encode("utf-8")).hexdigest()`. -/
def prefix_key_sha256 (text : String) : String := sha256OfString text

/-- The similarity-ratio denominator used at every ratio site of the source:
`max(1, min(len(req_blocks), len(cand_blocks)))`. -/
def ratio_denom (a b : Nat) : Nat := max 1 (min a b)

/-- A metadata record: `{key, model_id, words_per_block, block_hashes}` per
spec section 3.  (`hashing.write_meta` stores the block-size field under the
JSON name `"wpb"`, `slot_manager` reads `"words_per_block"`; the field name
is irrelevant to the embedding.)  The timestamp field is omitted: no claim
refers to it. -/
structure MetaRecord where
  key : String
  model_id : String
  words_per_block : Nat
  blocks : List String
deriving DecidableEq

/-- hashing.find_best_restore_candidate: best on-disk candidate for the
current model and block size, under threshold `th`; the scanned records are
passed in as `metas` (the result of `scan_all_meta`). -/
def find_best_restore_candidate (req_blocks : List String) (wpb : Nat) (th : ℚ)
    (model_id : String) (metas : List MetaRecord) : Option (String × ℚ) :=
  let best := metas.foldl
    (fun (acc : Option String × ℚ) meta =>
      if meta.model_id = model_id ∧ meta.words_per_block = wpb then
        let lcp := lcp_blocks req_blocks meta.blocks
        let denom := ratio_denom req_blocks.length meta.blocks.length
        let ratio : ℚ := mkRat lcp denom
        if th ≤ ratio ∧ acc.2 < ratio then (some meta.key, ratio) else acc
      else acc)
    ((none : Option String), (0 : ℚ))
  match best with
  | (some k, r) => if k = "" then none else some (k, r)
  | (none, _) => none

/-! ## app.py -/

/-- A chat message; only `content` enters the canonical prefix (roles are
discarded).  Non-string content is coerced to a string upstream, so `content`
is a `String` here. -/
structure Message where
  content : String
deriving DecidableEq

/-- Python `str.strip()` (whitespace characters). -/
def pyStrip (s : String) : String :=
  String.mk (((s.data.dropWhile Char.isWhitespace).reverse.dropWhile Char.isWhitespace).reverse)

/-- Modelled from the spec: `canonical_chat_prefix` is imported by `app.py`
from `hashing` but is absent from the source tree.  Spec section 3:
"concatenate the `content` of each message in order, separated by a blank
line; ... No role markers are included in the hashed text."  This coincides
with the `hashing.raw_prefix` present in the source (trim each content, drop
empties, join with a blank line, strip).  The `add_bos` flag passed by
`app.py` is not described by the spec and is modelled as having no effect. -/
def canonical_chat_prefix_text (messages : List Message) : String :=
  pyStrip (String.intercalate "\n\n"
    ((messages.map (fun m => pyStrip m.content)).filter (fun s => !(s == ""))))

/-- app.extract_prefix_stats: returns
`(key, prefix_text, blocks, prefix_len_chars, words_cnt)`.  Note the key is
`prefix_key_sha256(prefix_text)` — the prefix text alone. -/
def extract_prefix_stats (messages : List Message) (words_per_block : Nat) :
    String × String × List String × Nat × Nat :=
  let text := canonical_chat_prefix_text messages
  let key := prefix_key_sha256 text
  let blocks := block_hashes_from_text text words_per_block
  let words_cnt := (words_from_text text).length
  (key, text, blocks, text.length, words_cnt)

/-- app.resolve_block_size.  The header/query string value is modelled by its
observable effect on the code: `none` = absent or falsy (empty) value,
`some none` = present but `int()` raises, `some (some n)` = present and
`int(v) = n`. -/
def resolve_block_size (v : Option (Option Int)) (dflt : Int) : Int :=
  match v with
  | some (some n) => if 1 ≤ n ∧ n ≤ 2048 then n else dflt
  | some none => dflt
  | none => dflt

/-- app.chat_completions: the `small` classification expression.
`small = (mode == "chars" and prefix_len < min_chars) or
(mode == "words" and words_cnt < min_words) or
(mode == "blocks" and blocks_cnt < min_blocks)`; a request is big iff this
is `false`. -/
def small_request (mode : String) (prefix_len words_cnt blocks_cnt : Nat)
    (min_chars min_words min_blocks : Nat) : Bool :=
  (if mode = "chars" then prefix_len < min_chars else false) ||
  (if mode = "words" then words_cnt < min_words else false) ||
  (if mode = "blocks" then blocks_cnt < min_blocks else false)

/-! ## llama_client.py -/

/-- llama_client.LlamaClient.restore_slot: POSTs
`/slots/{slot_id}?action=restore` and returns `True` iff the backend
answered HTTP 200 (any other status is logged and yields `False`). -/
def restore_slot (status_code : Nat) : Bool := status_code == 200

/-! ## slot_manager.py -/

/-- slot_manager.SlotBinding.  `lock : asyncio.Lock` is modelled by
`lockHolder : Option Nat` (`none` = unlocked, `some r` = held by request
`r`); `lock.locked()` is `lockHolder ≠ none`.  Timestamps are a logical
clock (`Nat`). -/
structure SlotBinding where
  key : String
  prefix_text : String
  block_hashes : List String
  last_use_ts : Nat
  words_per_block : Nat
  pinned : Bool
  hot : Bool
  lockHolder : Option Nat
deriving DecidableEq

/-- The in-memory state of a `SlotManager`: slot count and the
insertion-ordered binding table `self._bindings`, plus the current logical
time returned by `self._now()`. -/
structure SMState where
  slots_count : Nat
  bindings : List (Nat × SlotBinding)
  now : Nat
deriving DecidableEq

/-- Backend calls issued by the slot manager while acquiring a slot.
`restore sid key ok` records `restore_slot_cache(sid, key)` together with
the backend's success flag (which the source discards); `save sid key`
would record `save_slot_cache(sid, key)`. -/
inductive Effect where
  | save (sid : Nat) (key : String)
  | restore (sid : Nat) (key : String) (ok : Bool)
deriving DecidableEq

/-- The value returned by `ensure_slot_for_request`
(`sid, binding, source, lcp, total`), plus two observers: the rejected hot
slot id that the source logs (`rejected_sid`), and the trace of backend
calls made during the acquisition. -/
structure EnsureResult where
  sid : Nat
  binding : SlotBinding
  outcome : String
  lcp : Nat
  total : Nat
  rejected : Option Nat
  trace : List Effect
deriving DecidableEq

/-- Look up a binding by slot id (first match, as in a Python dict). -/
def lookupB (st : SMState) (sid : Nat) : Option SlotBinding :=
  (st.bindings.find? (fun p => p.1 == sid)).map (·.2)

/-- Store a binding under a slot id: an existing key is updated in place
(keeping its dict position), a new key is appended. -/
def setB (st : SMState) (sid : Nat) (b : SlotBinding) : SMState :=
  if st.bindings.any (fun p => p.1 == sid) then
    { st with bindings := st.bindings.map (fun p => if p.1 == sid then (sid, b) else p) }
  else
    { st with bindings := st.bindings ++ [(sid, b)] }

/-- slot_manager.SlotManager._free_slot_ids: slot ids in
`range(slots_count)` with no binding. -/
def free_slot_ids (st : SMState) : List Nat :=
  (List.range st.slots_count).filter (fun i => !(st.bindings.any (fun p => p.1 == i)))

/-- Stable insertion into a list sorted by `last_use_ts` (ascending): the
new element goes before the first strictly-greater timestamp, matching the
stability of Python `sorted`. -/
def insertByTs (x : Nat × SlotBinding) : List (Nat × SlotBinding) → List (Nat × SlotBinding)
  | [] => [x]
  | y :: ys => if y.2.last_use_ts < x.2.last_use_ts then y :: insertByTs x ys else x :: y :: ys

/-- Stable sort of bindings by ascending `last_use_ts`. -/
def sortByTs (l : List (Nat × SlotBinding)) : List (Nat × SlotBinding) :=
  l.foldr insertByTs []

/-- slot_manager.SlotManager._lrud_ids: bound slot ids not in `exclude`,
oldest `last_use_ts` first. -/
def lrud_ids (st : SMState) (ex : List Nat) : List Nat :=
  (sortByTs (st.bindings.filter (fun p => !(ex.contains p.1)))).map (·.1)

/-- The binding created for a never-bound slot id in
`acquire_free_or_cold_slot` (steps 1 and 4b), with its fresh lock
immediately acquired by request `r`. -/
def freshBinding (now : Nat) (r : Nat) : SlotBinding :=
  { key := "(empty)", prefix_text := "", block_hashes := [], last_use_ts := now,
    words_per_block := 16, pinned := false, hot := false, lockHolder := some r }

/-- Acquire the lock of slot `sid` for request `r` (the binding exists on
every reachable call; the `none` fallback is unreachable). -/
def acquireAt (r : Nat) (st : SMState) (sid : Nat) : SMState × Nat × SlotBinding :=
  match lookupB st sid with
  | some b =>
    let b2 := { b with lockHolder := some r }
    (setB st sid b2, sid, b2)
  | none =>
    let b2 := freshBinding st.now r
    (setB st sid b2, sid, b2)

/-- Step 2 of `acquire_free_or_cold_slot`: the first (oldest) non-pinned
cold binding whose lock is free. -/
def acquireStep2 (st : SMState) (lr : List Nat) : Option Nat :=
  lr.find? (fun sid =>
    match lookupB st sid with
    | some b => !b.pinned && !b.hot && (b.lockHolder == none)
    | none => false)

/-- Step 3 of `acquire_free_or_cold_slot`: the first (oldest) non-pinned
binding whose lock is free. -/
def acquireStep3 (st : SMState) (lr : List Nat) : Option Nat :=
  lr.find? (fun sid =>
    match lookupB st sid with
    | some b => !b.pinned && (b.lockHolder == none)
    | none => false)

/-- slot_manager.SlotManager.acquire_free_or_cold_slot, called by request
`r`: (1) a free (unbound) id not in `exclude`; (2) the oldest unlocked
non-pinned cold binding; (3) the oldest unlocked non-pinned binding; (4)
wait for the LRU binding outside `exclude`; (4b) with no alternative, wait
for the global LRU (or create slot 0 if nothing is bound).  Blocking waits
are modelled as eventual acquisition. -/
def acquire_free_or_cold_slot (r : Nat) (ex : List Nat) (st : SMState) :
    SMState × Nat × SlotBinding :=
  match (free_slot_ids st).filter (fun i => !(ex.contains i)) with
  | sid :: _ =>
    let b := freshBinding st.now r
    (setB st sid b, sid, b)
  | [] =>
    match acquireStep2 st (lrud_ids st ex) with
    | some sid => acquireAt r st sid
    | none =>
      match acquireStep3 st (lrud_ids st ex) with
      | some sid => acquireAt r st sid
      | none =>
        match lrud_ids st ex with
        | sid :: _ => acquireAt r st sid
        | [] =>
          match lrud_ids st [] with
          | [] =>
            let b := freshBinding st.now r
            (setB st 0 b, 0, b)
          | sid :: _ => acquireAt r st sid

/-- slot_manager.SlotManager._eligible_active: hot and matching
`words_per_block`. -/
def eligible_active (b : SlotBinding) (wpb : Nat) : Bool :=
  b.hot && (b.words_per_block == wpb)

/-- Step 1 of `ensure_slot_for_request`: the first eligible hot binding whose
block-hash sequence equals the request's. -/
def findExact (req_blocks : List String) (wpb : Nat) (bs : List (Nat × SlotBinding)) :
    Option (Nat × SlotBinding) :=
  bs.find? (fun p => eligible_active p.2 wpb && (p.2.block_hashes == req_blocks))

/-- Step 2 of `ensure_slot_for_request`: the eligible hot binding of maximal
`lcp_blocks` (strict improvement over a running best starting at 0, so the
first maximum in dict order wins and a binding is only selected with
`lcp > 0`). -/
def bestActive (req_blocks : List String) (wpb : Nat) (bs : List (Nat × SlotBinding)) :
    Option (Nat × SlotBinding) × Nat :=
  bs.foldl
    (fun acc p =>
      if eligible_active p.2 wpb then
        let l := lcp_blocks req_blocks p.2.block_hashes
        if acc.2 < l then (some p, l) else acc
      else acc)
    ((none : Option (Nat × SlotBinding)), 0)

/-- Step 3 of `ensure_slot_for_request`: the metadata record (matching model
and block size) of maximal `lcp_blocks`, with the same strict-improvement
rule.  The scanned records (`scan_all_meta_local`, absent from the source
tree; per spec section 4.2 a scan of all on-disk MetaRecords) are the input
`metas`. -/
def bestMetaScan (req_blocks : List String) (wpb : Nat) (model_id : String)
    (metas : List MetaRecord) : Option MetaRecord × Nat :=
  metas.foldl
    (fun acc m =>
      if m.model_id == model_id && (m.words_per_block == wpb) then
        let l := lcp_blocks req_blocks m.blocks
        if acc.2 < l then (some m, l) else acc
      else acc)
    ((none : Option MetaRecord), 0)

/-- slot_manager.ensure_slot_for_request, active-slot phase: `lock.acquire()`
guarded by `if not lock.locked()` — when the lock is already held the source
proceeds without acquiring it. -/
def maybeAcquire (r : Nat) (b : SlotBinding) : SlotBinding :=
  if b.lockHolder = none then { b with lockHolder := some r } else b

/-- Result of the active-slot phase of `ensure_slot_for_request`: either an
early return (active-exact / active-lcp), or fall-through with the optional
rejected hot slot id. -/
inductive ActivePhase where
  | taken (st : SMState) (res : EnsureResult)
  | pass (rejected : Option Nat)

/-- The active-slot phase (steps 1-2 and the accept/reject decision) of
`ensure_slot_for_request` for request `r` under threshold `τ`
(`config.SIMILARITY_MIN_RATIO`). -/
def activePhase (τ : ℚ) (r : Nat) (req_blocks : List String) (wpb : Nat)
    (st : SMState) : ActivePhase :=
  match (match findExact req_blocks wpb st.bindings with
         | some p => (some p, req_blocks.length)
         | none => bestActive req_blocks wpb st.bindings) with
  | (none, _) => .pass none
  | (some (sid, b), bestLcp) =>
    if bestLcp = req_blocks.length then
      let b2 := { maybeAcquire r b with last_use_ts := st.now }
      .taken (setB st sid b2)
        { sid := sid, binding := b2, outcome := "active-exact", lcp := bestLcp,
          total := b.block_hashes.length, rejected := none, trace := [] }
    else
      let denom := ratio_denom req_blocks.length b.block_hashes.length
      if τ ≤ mkRat bestLcp denom then
        let b2 := { maybeAcquire r b with last_use_ts := st.now }
        .taken (setB st sid b2)
          { sid := sid, binding := b2, outcome := "active-lcp", lcp := bestLcp,
            total := b.block_hashes.length, rejected := none, trace := [] }
      else
        .pass (some sid)

/-- The exclusion set handed to `acquire_free_or_cold_slot` by
`ensure_slot_for_request`: the rejected hot slot id, if any. -/
def exOf : Option Nat → List Nat
  | some s => [s]
  | none => []

/-- Steps 3-6 of `ensure_slot_for_request`: scan the on-disk metadata,
acquire a target slot excluding the rejected hot slot, then either restore
(binding the slot hot to the restored key regardless of the backend's
success flag `restore_ok`, which the source discards) or bind cold.
`pinned_keys` is `config.PINNED_PREFIX_KEYS`. -/
def ensureTail (τ : ℚ) (pinned_keys : List String) (model_id : String)
    (metas : List MetaRecord) (r : Nat) (req_key req_prefix_text : String)
    (req_blocks : List String) (wpb : Nat) (restore_ok : Bool)
    (rejected : Option Nat) (st : SMState) : SMState × EnsureResult :=
  let a := acquire_free_or_cold_slot r (exOf rejected) st
  let st1 := a.1
  let sid := a.2.1
  let sb := a.2.2
  let cold : SMState × EnsureResult :=
    let nb : SlotBinding :=
      { key := req_key, prefix_text := req_prefix_text, block_hashes := req_blocks,
        last_use_ts := st1.now, words_per_block := wpb,
        pinned := pinned_keys.contains req_key, hot := true, lockHolder := sb.lockHolder }
    (setB st1 sid nb,
     { sid := sid, binding := nb, outcome := "cold", lcp := 0, total := 0,
       rejected := rejected, trace := [] })
  match bestMetaScan req_blocks wpb model_id metas with
  | (some m, bmLcp) =>
    if 0 < bmLcp ∧ τ ≤ mkRat bmLcp (ratio_denom req_blocks.length m.blocks.length) then
      let nb : SlotBinding :=
        { key := m.key, prefix_text := "(from meta)", block_hashes := m.blocks,
          last_use_ts := st1.now, words_per_block := wpb,
          pinned := pinned_keys.contains m.key, hot := true, lockHolder := sb.lockHolder }
      (setB st1 sid nb,
       { sid := sid, binding := nb, outcome := "restore-lcp", lcp := bmLcp,
         total := nb.block_hashes.length, rejected := rejected,
         trace := [Effect.restore sid m.key restore_ok] })
    else cold
  | (none, _) => cold

/-- slot_manager.SlotManager.ensure_slot_for_request, for request `r`:
active-exact / active-lcp / restore-lcp / cold decision, returning the new
state and `(sid, binding, source, lcp, total)` plus the observers. -/
def ensure_slot_for_request (τ : ℚ) (pinned_keys : List String) (model_id : String)
    (metas : List MetaRecord) (r : Nat) (req_key req_prefix_text : String)
    (req_blocks : List String) (wpb : Nat) (restore_ok : Bool)
    (st : SMState) : SMState × EnsureResult :=
  match activePhase τ r req_blocks wpb st with
  | .taken st2 res => (st2, res)
  | .pass rejected =>
    ensureTail τ pinned_keys model_id metas r req_key req_prefix_text req_blocks wpb
      restore_ok rejected st

/-! ## Demonstration states for the concrete claim scenarios -/

/-- A one-slot manager with an empty binding table at logical time 0. -/
def oneSlotEmpty : SMState := ⟨1, [], 0⟩

/-- First big request (requester 0) against the empty one-slot manager:
cold-binds slot 0 and acquires its lock. -/
def c1_first : SMState × EnsureResult :=
  ensure_slot_for_request (mkRat 17 20) [] "m" [] 0 "K1" "p1" ["h1"] 16 true oneSlotEmpty

/-- Second big request (requester 1) with the same prefix, arriving while
requester 0 still holds slot 0's lock (it is still generating). -/
def c1_second : SMState × EnsureResult :=
  ensure_slot_for_request (mkRat 17 20) [] "m" [] 1 "K1" "p1" ["h1"] 16 true c1_first.1

/-- A one-slot manager whose slot 0 is hot and bound to key `K1`, lock
free, at logical time 6. -/
def c2_state : SMState :=
  ⟨1, [(0, ⟨"K1", "p1", ["h1"], 5, 16, false, true, none⟩)], 6⟩

/-- A big request with target key `K2` (dissimilar blocks) that evicts the
hot `K1` binding of slot 0. -/
def c2_run : SMState × EnsureResult :=
  ensure_slot_for_request (mkRat 17 20) [] "m" [] 0 "K2" "p2" ["h2"] 16 true c2_state

/-- The on-disk metadata record whose blocks exactly match the C4 request. -/
def c4_meta : MetaRecord := ⟨"KM", "m", 16, ["h1", "h2"]⟩

/-- A big request that selects `c4_meta` as restore candidate while the
backend answers the restore call with HTTP 500
(`LlamaClient.restore_slot` returns `False`). -/
def c4_run : SMState × EnsureResult :=
  ensure_slot_for_request (mkRat 17 20) [] "m" [c4_meta] 0 "KR" "p" ["h1", "h2"] 16
    (restore_slot 500) oneSlotEmpty

/-- The slot table for the C6 witness: slot 0 hot with five blocks (it will
be rejected at ratio 1/5), slot 1 cold, two slots total. -/
def c6_state : SMState :=
  ⟨2, [(0, ⟨"K1", "p1", ["a", "b", "c", "d", "e"], 9, 16, false, true, none⟩),
      (1, ⟨"K0", "p0", ["z"], 3, 16, false, false, none⟩)], 10⟩

/-- The one-slot table for the C6 fallback witness: only slot 0 is bound,
and it is excluded. -/
def c6b_state : SMState :=
  ⟨1, [(0, ⟨"K1", "p1", ["h1"], 5, 16, false, true, none⟩)], 9⟩

/-- The slot table for the C7 witness: one hot slot with four blocks, three
of which the request shares (ratio 3/4, threshold 3/4). -/
def c7_state : SMState :=
  ⟨2, [(0, ⟨"K1", "p1", ["a", "b", "c", "d"], 9, 16, false, true, none⟩)], 10⟩

/-- The state after a big request with an empty block sequence cold-binds
the single slot: its binding is hot with an empty block-hash list. -/
def c8_state : SMState :=
  (ensure_slot_for_request (mkRat 17 20) [] "m" [] 0 "KE" "" [] 16 true oneSlotEmpty).1

/-! ## Helper lemmas -/

set_option maxRecDepth 10000 in
/-- Sanity check of the SHA-256 embedding against the standard test vector
for `"abc"`. -/
theorem sha256_abc_vector :
    sha256OfString "abc" =
      "ba7816bf8f01cfea414140de5dae2223b00361a396177a9cb410ff61f20015ad" := by
  decide

/-- Invariants are preserved by `List.foldl`. -/
theorem foldl_preserves {α β : Type _} {f : β → α → β} {P : β → Prop} :
    ∀ (l : List α) (init : β), P init → (∀ b a, P b → P (f b a)) → P (l.foldl f init)
  | [], _, h, _ => h
  | a :: l, init, h, hstep => foldl_preserves l (f init a) (hstep init a h) hstep

/-- `lcp_blocks` is bounded by the length of its first argument. -/
theorem lcp_blocks_le_left : ∀ a b : List String, lcp_blocks a b ≤ a.length := by
  intro a
  induction a with
  | nil => intro b; cases b <;> simp [lcp_blocks]
  | cons x xs ih =>
    intro b
    cases b with
    | nil => simp [lcp_blocks]
    | cons y ys =>
      simp only [lcp_blocks, List.length_cons]
      split
      · exact Nat.succ_le_succ (ih ys)
      · exact Nat.zero_le _

/-- `lcp_blocks` is bounded by the length of its second argument. -/
theorem lcp_blocks_le_right : ∀ a b : List String, lcp_blocks a b ≤ b.length := by
  intro a
  induction a with
  | nil => intro b; cases b <;> simp [lcp_blocks]
  | cons x xs ih =>
    intro b
    cases b with
    | nil => simp [lcp_blocks]
    | cons y ys =>
      simp only [lcp_blocks, List.length_cons]
      split
      · exact Nat.succ_le_succ (ih ys)
      · exact Nat.zero_le _

/-- An empty request has a zero-length common prefix with everything. -/
theorem lcp_blocks_nil (b : List String) : lcp_blocks [] b = 0 := by
  cases b <;> rfl

/-- The invariant of the `bestActive` fold: either no candidate yet (with
running best 0), or the candidate's lcp is the running best, which is
positive. -/
theorem bestActive_inv (req : List String) (wpb : Nat) (bs : List (Nat × SlotBinding)) :
    (bestActive req wpb bs = ((none : Option (Nat × SlotBinding)), 0)) ∨
    ∃ p, bestActive req wpb bs =
        (some p, lcp_blocks req p.2.block_hashes) ∧
      1 ≤ lcp_blocks req p.2.block_hashes := by
  unfold bestActive
  apply foldl_preserves (P := fun acc : Option (Nat × SlotBinding) × Nat =>
    acc = (none, 0) ∨
    ∃ p, acc = (some p, lcp_blocks req p.2.block_hashes) ∧ 1 ≤ lcp_blocks req p.2.block_hashes)
  · exact Or.inl rfl
  · intro acc p hacc
    by_cases he : eligible_active p.2 wpb = true
    · simp only [he, if_true]
      by_cases hl : acc.2 < lcp_blocks req p.2.block_hashes
      · simp only [hl, if_true]
        refine Or.inr ⟨p, rfl, ?_⟩
        omega
      · simp only [hl, if_false]
        exact hacc
    · simp only [Bool.not_eq_true] at he
      simp only [he, Bool.false_eq_true, if_false]
      exact hacc

/-- The invariant of the `bestMetaScan` fold. -/
theorem bestMetaScan_inv (req : List String) (wpb : Nat) (model_id : String)
    (metas : List MetaRecord) :
    (bestMetaScan req wpb model_id metas = ((none : Option MetaRecord), 0)) ∨
    ∃ m, bestMetaScan req wpb model_id metas = (some m, lcp_blocks req m.blocks) ∧
      1 ≤ lcp_blocks req m.blocks := by
  unfold bestMetaScan
  apply foldl_preserves (P := fun acc : Option MetaRecord × Nat =>
    acc = (none, 0) ∨
    ∃ m, acc = (some m, lcp_blocks req m.blocks) ∧ 1 ≤ lcp_blocks req m.blocks)
  · exact Or.inl rfl
  · intro acc m hacc
    by_cases he : (m.model_id == model_id && (m.words_per_block == wpb)) = true
    · simp only [he, if_true]
      by_cases hl : acc.2 < lcp_blocks req m.blocks
      · simp only [hl, if_true]
        refine Or.inr ⟨m, rfl, ?_⟩
        omega
      · simp only [hl, if_false]
        exact hacc
    · simp only [Bool.not_eq_true] at he
      simp only [he, Bool.false_eq_true, if_false]
      exact hacc

/-- With an empty request block list, the `bestActive` fold never selects a
candidate. -/
theorem bestActive_nil (wpb : Nat) (bs : List (Nat × SlotBinding)) :
    bestActive [] wpb bs = ((none : Option (Nat × SlotBinding)), 0) := by
  unfold bestActive
  apply foldl_preserves (P := fun acc : Option (Nat × SlotBinding) × Nat => acc = (none, 0))
  · rfl
  · intro acc p hacc
    subst hacc
    simp [lcp_blocks_nil]

/-- With an empty request block list, the `bestMetaScan` fold never selects
a candidate. -/
theorem bestMetaScan_nil (wpb : Nat) (model_id : String) (metas : List MetaRecord) :
    bestMetaScan [] wpb model_id metas = ((none : Option MetaRecord), 0) := by
  unfold bestMetaScan
  apply foldl_preserves (P := fun acc : Option MetaRecord × Nat => acc = (none, 0))
  · rfl
  · intro acc m hacc
    subst hacc
    simp [lcp_blocks_nil]

/-- Membership is preserved by `insertByTs`. -/
theorem mem_insertByTs {x p : Nat × SlotBinding} :
    ∀ {l : List (Nat × SlotBinding)}, p ∈ insertByTs x l ↔ p = x ∨ p ∈ l := by
  intro l
  induction l with
  | nil => simp [insertByTs]
  | cons y ys ih =>
    simp only [insertByTs]
    split
    · simp only [List.mem_cons, ih]
      tauto
    · simp only [List.mem_cons]

/-- Membership is preserved by `sortByTs`. -/
theorem mem_sortByTs {p : Nat × SlotBinding} :
    ∀ {l : List (Nat × SlotBinding)}, p ∈ sortByTs l ↔ p ∈ l := by
  intro l
  induction l with
  | nil => simp [sortByTs]
  | cons y ys ih =>
    simp only [sortByTs, List.foldr_cons, List.mem_cons]
    rw [show ys.foldr insertByTs [] = sortByTs ys from rfl] at *
    simp [mem_insertByTs, ih]

/-- The head of `sortByTs` has the minimal `last_use_ts` of the list. -/
theorem sortByTs_head_min :
    ∀ (l : List (Nat × SlotBinding)) (x : Nat × SlotBinding) (xs : List (Nat × SlotBinding)),
      sortByTs l = x :: xs → ∀ p ∈ l, x.2.last_use_ts ≤ p.2.last_use_ts := by
  intro l
  induction l with
  | nil => intro x xs h; simp [sortByTs] at h
  | cons a t ih =>
    intro x xs h p hp
    have hsort : sortByTs (a :: t) = insertByTs a (sortByTs t) := rfl
    rw [hsort] at h
    rcases ht : sortByTs t with _ | ⟨y, ys⟩
    · rw [ht] at h
      simp only [insertByTs] at h
      cases h
      rcases List.mem_cons.mp hp with hpa | hpt
      · subst hpa; exact le_refl _
      · exfalso
        have : p ∈ sortByTs t := mem_sortByTs.mpr hpt
        rw [ht] at this
        exact (List.not_mem_nil p) this
    · rw [ht] at h
      simp only [insertByTs] at h
      split at h
      · cases h
        rcases List.mem_cons.mp hp with hpa | hpt
        · subst hpa; omega
        · exact ih _ _ ht p hpt
      · cases h
        rcases List.mem_cons.mp hp with hpa | hpt
        · subst hpa; exact le_refl _
        · have hy := ih _ _ ht p hpt
          omega

/-- A slot id in `lrud_ids st ex` is not excluded. -/
theorem lrud_ids_not_excluded {st : SMState} {ex : List Nat} {sid : Nat}
    (h : sid ∈ lrud_ids st ex) : ex.contains sid = false := by
  unfold lrud_ids at h
  rcases List.mem_map.mp h with ⟨p, hp, hfst⟩
  have hp2 := mem_sortByTs.mp hp
  have := List.of_mem_filter hp2
  subst hfst
  simpa using this

/-- Any bound, non-excluded slot id appears in `lrud_ids st ex`. -/
theorem mem_lrud_ids {st : SMState} {ex : List Nat} {sid : Nat} {b : SlotBinding}
    (hb : (sid, b) ∈ st.bindings) (hex : ex.contains sid = false) :
    sid ∈ lrud_ids st ex := by
  unfold lrud_ids
  refine List.mem_map.mpr ⟨(sid, b), ?_, rfl⟩
  refine mem_sortByTs.mpr (List.mem_filter.mpr ⟨hb, ?_⟩)
  simpa using hex

/-- `acquireAt` hands back the slot id it was asked for. -/
theorem acquireAt_sid (r : Nat) (st : SMState) (sid : Nat) :
    (acquireAt r st sid).2.1 = sid := by
  unfold acquireAt
  cases lookupB st sid <;> rfl

/-- Bridge from the source's guarded ratio (`lcp / max(1, min(a,b))`, as the
exact rational `mkRat`) to the spec's ratio `lcp / min(|R|, |C|)` when the
lcp is positive. -/
theorem ratio_via_min {τ : ℚ} {l a b : Nat} (h1 : 1 ≤ l) (ha : l ≤ a) (hb : l ≤ b)
    (h : τ ≤ mkRat l (ratio_denom a b)) :
    τ ≤ (l : ℚ) / ((min a b : Nat) : ℚ) := by
  have hd : ratio_denom a b = min a b := by
    unfold ratio_denom
    omega
  rw [hd, Rat.mkRat_eq_div] at h
  rwa [Int.cast_natCast] at h

/-- If any non-excluded candidate slot exists (free or bound), the slot
handed back by `acquire_free_or_cold_slot` is not excluded. -/
theorem acquire_not_excluded (r : Nat) (ex : List Nat) (st : SMState)
    (h : ∃ sid, ((sid ∈ free_slot_ids st) ∨ ∃ b, (sid, b) ∈ st.bindings) ∧
      ex.contains sid = false) :
    ex.contains (acquire_free_or_cold_slot r ex st).2.1 = false := by
  unfold acquire_free_or_cold_slot
  rcases hfree : (free_slot_ids st).filter (fun i => !(ex.contains i)) with _ | ⟨sid0, rest⟩
  · obtain ⟨sid1, hcand, hnex⟩ := h
    have hlr : sid1 ∈ lrud_ids st ex := by
      rcases hcand with hfree1 | ⟨b, hb⟩
      · exfalso
        have : sid1 ∈ (free_slot_ids st).filter (fun i => !(ex.contains i)) :=
          List.mem_filter.mpr ⟨hfree1, by simpa using hnex⟩
        rw [hfree] at this
        exact List.not_mem_nil sid1 this
      · exact mem_lrud_ids hb hnex
    have hlrne : lrud_ids st ex ≠ [] := List.ne_nil_of_mem hlr
    rcases h2 : acquireStep2 st (lrud_ids st ex) with _ | sid2
    · rcases h3 : acquireStep3 st (lrud_ids st ex) with _ | sid3
      · rcases hl : lrud_ids st ex with _ | ⟨sidh, lt⟩
        · exact absurd hl hlrne
        · simp only [acquireAt_sid]
          have : sidh ∈ lrud_ids st ex := by
            rw [hl]
            exact List.mem_cons_self sidh lt
          exact lrud_ids_not_excluded this
      · simp only [acquireAt_sid]
        have hmem : sid3 ∈ lrud_ids st ex := List.mem_of_find?_eq_some h3
        exact lrud_ids_not_excluded hmem
    · simp only [acquireAt_sid]
      have hmem : sid2 ∈ lrud_ids st ex := List.mem_of_find?_eq_some h2
      exact lrud_ids_not_excluded hmem
  · have hm : sid0 ∈ (free_slot_ids st).filter (fun i => !(ex.contains i)) := by
      rw [hfree]
      exact List.mem_cons_self sid0 rest
    have := List.of_mem_filter hm
    simpa using this

/-- When every candidate is excluded but some slot is bound,
`acquire_free_or_cold_slot` falls back to the global LRU: the returned slot
is bound and has the minimal `last_use_ts` of the whole table. -/
theorem acquire_global_lru (r : Nat) (ex : List Nat) (st : SMState)
    (hfree : (free_slot_ids st).filter (fun i => !(ex.contains i)) = [])
    (hlr : lrud_ids st ex = [])
    (hbind : st.bindings ≠ []) :
    ∃ b, ((acquire_free_or_cold_slot r ex st).2.1, b) ∈ st.bindings ∧
      ∀ q ∈ st.bindings, b.last_use_ts ≤ q.2.last_use_ts := by
  have hfilter : st.bindings.filter (fun p => !(([] : List Nat).contains p.1)) = st.bindings :=
    List.filter_eq_self.mpr (fun a _ => rfl)
  rcases hs : sortByTs st.bindings with _ | ⟨p0, ps⟩
  · exfalso
    apply hbind
    rcases hb : st.bindings with _ | ⟨q, qs⟩
    · rfl
    · exfalso
      have : q ∈ sortByTs st.bindings := mem_sortByTs.mpr (by rw [hb]; exact List.mem_cons_self q qs)
      rw [hs] at this
      exact List.not_mem_nil q this
  · have hlru0 : lrud_ids st [] = p0.1 :: ps.map (·.1) := by
      unfold lrud_ids
      rw [hfilter, hs]
      rfl
    unfold acquire_free_or_cold_slot
    rw [hfree, hlr]
    have h2 : acquireStep2 st ([] : List Nat) = none := rfl
    have h3 : acquireStep3 st ([] : List Nat) = none := rfl
    simp only [h2, h3, hlru0, acquireAt_sid]
    refine ⟨p0.2, ?_, ?_⟩
    · have : p0 ∈ sortByTs st.bindings := by
        rw [hs]
        exact List.mem_cons_self p0 ps
      exact mem_sortByTs.mp this
    · exact sortByTs_head_min st.bindings p0 ps hs

/-- Observers of `ensureTail`: the result records the rejected slot id it
was given, and its slot id is the one chosen by
`acquire_free_or_cold_slot` under the exclusion set `exOf rejected`. -/
theorem ensureTail_obs (τ : ℚ) (pinned_keys : List String) (model_id : String)
    (metas : List MetaRecord) (r : Nat) (req_key req_prefix_text : String)
    (req_blocks : List String) (wpb : Nat) (restore_ok : Bool)
    (rejected : Option Nat) (st : SMState) :
    (ensureTail τ pinned_keys model_id metas r req_key req_prefix_text req_blocks wpb
        restore_ok rejected st).2.rejected = rejected ∧
    (ensureTail τ pinned_keys model_id metas r req_key req_prefix_text req_blocks wpb
        restore_ok rejected st).2.sid =
      (acquire_free_or_cold_slot r (exOf rejected) st).2.1 := by
  unfold ensureTail
  rcases hbm : bestMetaScan req_blocks wpb model_id metas with ⟨mo, lcp⟩
  cases mo
  · exact ⟨rfl, rfl⟩
  · simp only []
    split
    · exact ⟨rfl, rfl⟩
    · exact ⟨rfl, rfl⟩

/-- Every early return of the active phase carries `rejected = none`. -/
theorem activePhase_taken_rejected_none {τ : ℚ} {r : Nat} {req_blocks : List String}
    {wpb : Nat} {st : SMState} {st2 : SMState} {res : EnsureResult}
    (h : activePhase τ r req_blocks wpb st = .taken st2 res) :
    res.rejected = none := by
  unfold activePhase at h
  rcases hfe : findExact req_blocks wpb st.bindings with _ | p
  · rw [hfe] at h
    rcases hba : bestActive req_blocks wpb st.bindings with ⟨bo, l⟩
    rw [hba] at h
    cases bo with
    | none => exact absurd h (by simp)
    | some q =>
      rcases q with ⟨sid, b⟩
      simp only [] at h
      split at h
      · cases h
        rfl
      · split at h
        · cases h
          rfl
        · exact absurd h (by simp)
  · rw [hfe] at h
    rcases p with ⟨sid, b⟩
    simp only [if_pos rfl] at h
    cases h
    rfl

/-- Early returns of the active phase are tagged `active-exact` or
`active-lcp`. -/
theorem activePhase_taken_outcome {τ : ℚ} {r : Nat} {req_blocks : List String}
    {wpb : Nat} {st : SMState} {st2 : SMState} {res : EnsureResult}
    (h : activePhase τ r req_blocks wpb st = .taken st2 res) :
    res.outcome = "active-exact" ∨ res.outcome = "active-lcp" := by
  unfold activePhase at h
  rcases hfe : findExact req_blocks wpb st.bindings with _ | p
  · rw [hfe] at h
    rcases hba : bestActive req_blocks wpb st.bindings with ⟨bo, l⟩
    rw [hba] at h
    cases bo with
    | none => exact absurd h (by simp)
    | some q =>
      rcases q with ⟨sid, b⟩
      simp only [] at h
      split at h
      · cases h
        exact Or.inl rfl
      · split at h
        · cases h
          exact Or.inr rfl
        · exact absurd h (by simp)
  · rw [hfe] at h
    rcases p with ⟨sid, b⟩
    simp only [if_pos rfl] at h
    cases h
    exact Or.inl rfl

/-- An `active-lcp` early return satisfies the similarity threshold over the
spec's denominator `min (|R|, |C|)`. -/
theorem activePhase_lcp_ratio {τ : ℚ} {r : Nat} {req_blocks : List String}
    {wpb : Nat} {st : SMState} {st2 : SMState} {res : EnsureResult}
    (h : activePhase τ r req_blocks wpb st = .taken st2 res)
    (ho : res.outcome = "active-lcp") :
    τ ≤ (res.lcp : ℚ) / ((min req_blocks.length res.total : Nat) : ℚ) := by
  unfold activePhase at h
  rcases hfe : findExact req_blocks wpb st.bindings with _ | p
  · rw [hfe] at h
    rcases hba : bestActive req_blocks wpb st.bindings with ⟨bo, l⟩
    rw [hba] at h
    cases bo with
    | none => exact absurd h (by simp)
    | some q =>
      rcases q with ⟨sid, b⟩
      simp only [] at h
      split at h
      · cases h
        have hne2 : ("active-exact" : String) ≠ "active-lcp" := by decide
        exact absurd ho hne2
      · split at h
        · rename_i hne hcond
          cases h
          rcases bestActive_inv req_blocks wpb st.bindings with hinv | ⟨p, hinv, hpos⟩
          · rw [hba] at hinv
            exact absurd hinv (by simp)
          · rw [hba] at hinv
            rw [Prod.mk.injEq, Option.some.injEq] at hinv
            obtain ⟨hp, hl⟩ := hinv
            subst hp
            simp only [] at hl hpos
            subst hl
            have ha := lcp_blocks_le_left req_blocks b.block_hashes
            have hb := lcp_blocks_le_right req_blocks b.block_hashes
            exact ratio_via_min hpos ha hb hcond
        · exact absurd h (by simp)
  · rw [hfe] at h
    rcases p with ⟨sid, b⟩
    simp only [if_pos rfl] at h
    cases h
    have hne2 : ("active-exact" : String) ≠ "active-lcp" := by decide
    exact absurd ho hne2

/-- `ensureTail` returns outcome `cold` or `restore-lcp`. -/
theorem ensureTail_outcomes (τ : ℚ) (pinned_keys : List String) (model_id : String)
    (metas : List MetaRecord) (r : Nat) (req_key req_prefix_text : String)
    (req_blocks : List String) (wpb : Nat) (restore_ok : Bool)
    (rejected : Option Nat) (st : SMState) :
    (ensureTail τ pinned_keys model_id metas r req_key req_prefix_text req_blocks wpb
        restore_ok rejected st).2.outcome = "cold" ∨
    (ensureTail τ pinned_keys model_id metas r req_key req_prefix_text req_blocks wpb
        restore_ok rejected st).2.outcome = "restore-lcp" := by
  unfold ensureTail
  rcases hbm : bestMetaScan req_blocks wpb model_id metas with ⟨mo, lcp⟩
  cases mo
  · exact Or.inl rfl
  · simp only []
    split
    · exact Or.inr rfl
    · exact Or.inl rfl

/-- A `restore-lcp` return of `ensureTail` satisfies the similarity
threshold over the spec's denominator `min (|R|, |C|)`. -/
theorem ensureTail_restore_ratio {τ : ℚ} {pinned_keys : List String} {model_id : String}
    {metas : List MetaRecord} {r : Nat} {req_key req_prefix_text : String}
    {req_blocks : List String} {wpb : Nat} {restore_ok : Bool}
    {rejected : Option Nat} {st st2 : SMState} {res : EnsureResult}
    (h : ensureTail τ pinned_keys model_id metas r req_key req_prefix_text req_blocks wpb
        restore_ok rejected st = (st2, res))
    (ho : res.outcome = "restore-lcp") :
    τ ≤ (res.lcp : ℚ) / ((min req_blocks.length res.total : Nat) : ℚ) := by
  unfold ensureTail at h
  rcases hbm : bestMetaScan req_blocks wpb model_id metas with ⟨mo, lcp⟩
  rw [hbm] at h
  cases mo with
  | none =>
    cases h
    have hne2 : ("cold" : String) ≠ "restore-lcp" := by decide
    exact absurd ho hne2
  | some m =>
    simp only [] at h
    split at h
    · rename_i hcond
      obtain ⟨hpos, hratio⟩ := hcond
      cases h
      rcases bestMetaScan_inv req_blocks wpb model_id metas with hinv | ⟨m2, hinv, _⟩
      · rw [hbm] at hinv
        exact absurd hinv (by simp)
      · rw [hbm] at hinv
        rw [Prod.mk.injEq, Option.some.injEq] at hinv
        obtain ⟨hm, hl⟩ := hinv
        subst hm
        subst hl
        have ha := lcp_blocks_le_left req_blocks m.blocks
        have hb := lcp_blocks_le_right req_blocks m.blocks
        exact ratio_via_min hpos ha hb hratio
    · cases h
      have hne2 : ("cold" : String) ≠ "restore-lcp" := by decide
      exact absurd ho hne2

/-- With an empty request block sequence, the active phase either takes an
eligible hot slot whose block sequence is also empty (`active-exact`), or
passes with no rejection. -/
theorem activePhase_nil (τ : ℚ) (r : Nat) (wpb : Nat) (st : SMState) :
    (∃ st2 res, activePhase τ r [] wpb st = .taken st2 res ∧
      res.outcome = "active-exact" ∧
      ∃ sid b, (sid, b) ∈ st.bindings ∧ b.hot = true ∧ b.words_per_block = wpb ∧
        b.block_hashes = []) ∨
    activePhase τ r [] wpb st = .pass none := by
  rcases hfe : findExact [] wpb st.bindings with _ | p
  · right
    unfold activePhase
    rw [hfe, bestActive_nil]
  · left
    rcases p with ⟨sid, b⟩
    have hmem := List.mem_of_find?_eq_some hfe
    have hpred := List.find?_some hfe
    simp only [eligible_active, Bool.and_eq_true, beq_iff_eq] at hpred
    obtain ⟨⟨hhot, hwpb⟩, hblocks⟩ := hpred
    unfold activePhase
    rw [hfe]
    exact ⟨_, _, rfl, rfl, sid, b, hmem, hhot, hwpb, hblocks⟩

/-- With an empty request block sequence, `ensureTail` always binds cold. -/
theorem ensureTail_nil_outcome (τ : ℚ) (pinned_keys : List String) (model_id : String)
    (metas : List MetaRecord) (r : Nat) (req_key req_prefix_text : String)
    (wpb : Nat) (restore_ok : Bool) (rejected : Option Nat) (st : SMState) :
    (ensureTail τ pinned_keys model_id metas r req_key req_prefix_text [] wpb
        restore_ok rejected st).2.outcome = "cold" := by
  unfold ensureTail
  rw [bestMetaScan_nil]

/-- `[a].contains b` tests `b == a`. -/
theorem contains_singleton (a b : Nat) : ([a] : List Nat).contains b = (b == a) := by
  cases h : b == a <;> simp [List.contains, List.elem, h]

/-! ## Claim theorems -/

/-- Claim C1: at most one request holds a slot's lock at a time, and every
call to `ensure_slot_for_request` returns a slot whose lock is held by the
calling request until released.  The code violates the second conjunct (and
its own docstring "Во всех случаях слот захватывается (lock)"): on the
active-exact/active-lcp paths the lock acquisition is guarded by
`if not lock.locked()`, so when another request already holds the lock the
slot is returned anyway.  Here requester 0 cold-binds slot 0 and holds its
lock; requester 1 then gets the same slot back from an `active-exact`
match with the lock still held by requester 0, not by requester 1. -/
theorem claim_C1_lock_not_held_by_caller :
    c1_first.2.outcome = "cold" ∧
    c1_first.2.sid = 0 ∧
    c1_first.2.binding.lockHolder = some 0 ∧
    c1_second.2.outcome = "active-exact" ∧
    c1_second.2.sid = 0 ∧
    c1_second.2.binding.lockHolder = some 0 ∧
    c1_second.2.binding.lockHolder ≠ some 1 := by
  decide

/-- Claim C2: before binding a big request to a slot whose bound key differs
from the incoming key, the acquirer must invoke `save_slot` on the old key
(and on success touch its metadata).  The code violates this:
`ensure_slot_for_request` overwrites the in-memory binding (slot 0:
`K1 → K2`) with an empty backend-call trace — no `save_slot` (and hence no
`touch`) ever happens on eviction; `save_slot_cache` exists in the source
but is never called. -/
theorem claim_C2_eviction_overwrites_without_save :
    lookupB c2_state 0 = some ⟨"K1", "p1", ["h1"], 5, 16, false, true, none⟩ ∧
    c2_run.2.outcome = "cold" ∧
    c2_run.2.sid = 0 ∧
    c2_run.2.binding.key = "K2" ∧
    lookupB c2_run.1 0 = some c2_run.2.binding ∧
    c2_run.2.trace = [] := by
  decide

set_option maxRecDepth 10000 in
/-- Claim C3: the content key should be
`SHA-256(model_id || "\n" || prefix_text)` (so say the spec and
`hashing.py`'s own docstrings).  The code violates this:
`app.extract_prefix_stats` computes `prefix_key_sha256(prefix_text)` — the
model identifier never enters the hash — and at the concrete input
(messages `[{content: "hi"}]`, model `llama.cpp`) the two digests differ.
The first conjunct shows the key the code computes for every message list;
the remaining two evaluate both digests at the failing input. -/
theorem claim_C3_content_key_omits_model_id :
    (∀ (messages : List Message) (wpb : Nat),
      (extract_prefix_stats messages wpb).1 =
        prefix_key_sha256 (canonical_chat_prefix_text messages)) ∧
    (extract_prefix_stats [⟨"hi"⟩] 16).1 = prefix_key_sha256 "hi" ∧
    prefix_key_sha256 "hi" ≠ prefix_key_sha256 ("llama.cpp" ++ "\n" ++ "hi") := by
  refine ⟨fun _ _ => rfl, ?_, ?_⟩ <;> decide

/-- Claim C4: when the `restore_slot` backend call fails, the selected slot
should end up cold with no bound key.  The code violates this:
`LlamaClient.restore_slot` returns `False` on HTTP 500, but
`restore_slot_cache` discards that value and `ensure_slot_for_request`
unconditionally records the slot as hot and bound to the restore key.  Here
the restore call fails (trace records `ok = false`) yet slot 0 is bound hot
to `KM`. -/
theorem claim_C4_failed_restore_still_binds_hot :
    restore_slot 500 = false ∧
    c4_run.2.outcome = "restore-lcp" ∧
    c4_run.2.trace = [Effect.restore 0 "KM" false] ∧
    c4_run.2.binding.hot = true ∧
    c4_run.2.binding.key = "KM" ∧
    lookupB c4_run.1 0 = some c4_run.2.binding := by
  decide

/-- Claim C5, counterexample: the claim says a request is big iff its word
count is strictly greater than the threshold (so a request with exactly the
threshold number of words is small).  At `words_cnt = min_words = 8` the
code classifies the request as big (`small` requires `words_cnt <
min_words`), while `8 > 8` is false — the biconditional fails. -/
theorem claim_C5_boundary_counterexample :
    ¬ ((small_request "words" 0 8 0 0 8 0 = false) ↔ 8 > 8) := by
  decide

/-- Claim C5, amended: a request is big iff its word count is greater than
or equal to the configured minimum (a request with exactly the threshold
number of words is big), and likewise in the `chars` and `blocks` threshold
modes. -/
theorem claim_C5_big_iff_threshold_le :
    ∀ prefix_len words_cnt blocks_cnt min_chars min_words min_blocks : Nat,
      ((small_request "words" prefix_len words_cnt blocks_cnt
          min_chars min_words min_blocks = false) ↔ min_words ≤ words_cnt) ∧
      ((small_request "chars" prefix_len words_cnt blocks_cnt
          min_chars min_words min_blocks = false) ↔ min_chars ≤ prefix_len) ∧
      ((small_request "blocks" prefix_len words_cnt blocks_cnt
          min_chars min_words min_blocks = false) ↔ min_blocks ≤ blocks_cnt) := by
  intro pl wc bc mc mw mb
  refine ⟨?_, ?_, ?_⟩ <;> simp [small_request, Nat.not_lt]

/-- Claim C6: when the matcher rejected a hot slot, a cold or restore-lcp
outcome never lands on the rejected slot id as long as any non-rejected
candidate (a free id or a bound slot) exists; and only when every candidate
is excluded does selection fall back to the global LRU slot (the bound slot
of minimal `last_use_ts`). -/
theorem claim_C6_rejected_slot_excluded :
    (∀ (τ : ℚ) (pinned_keys : List String) (model_id : String) (metas : List MetaRecord)
        (r : Nat) (req_key req_prefix_text : String) (req_blocks : List String) (wpb : Nat)
        (restore_ok : Bool) (st st2 : SMState) (res : EnsureResult) (rej : Nat),
      ensure_slot_for_request τ pinned_keys model_id metas r req_key req_prefix_text
          req_blocks wpb restore_ok st = (st2, res) →
      (res.outcome = "cold" ∨ res.outcome = "restore-lcp") →
      res.rejected = some rej →
      (∃ sid, ((sid ∈ free_slot_ids st) ∨ ∃ b, (sid, b) ∈ st.bindings) ∧ sid ≠ rej) →
      res.sid ≠ rej) ∧
    (∀ (r : Nat) (ex : List Nat) (st : SMState),
      (free_slot_ids st).filter (fun i => !(ex.contains i)) = [] →
      lrud_ids st ex = [] →
      st.bindings ≠ [] →
      ∃ b, ((acquire_free_or_cold_slot r ex st).2.1, b) ∈ st.bindings ∧
        ∀ q ∈ st.bindings, b.last_use_ts ≤ q.2.last_use_ts) := by
  constructor
  · intro τ pk mid metas r k p req wpb ro st st2 res rej h ho hrej hcand
    unfold ensure_slot_for_request at h
    cases hap : activePhase τ r req wpb st with
    | taken st3 res3 =>
      rw [hap] at h
      have h2 : (st3, res3) = (st2, res) := h
      cases h2
      have hnone := activePhase_taken_rejected_none hap
      rw [hnone] at hrej
      exact absurd hrej (by simp)
    | pass rejected =>
      rw [hap] at h
      have h2 : ensureTail τ pk mid metas r k p req wpb ro rejected st = (st2, res) := h
      obtain ⟨hrj, hsid⟩ := ensureTail_obs τ pk mid metas r k p req wpb ro rejected st
      rw [h2] at hrj hsid
      have hreq : rejected = some rej := hrj.symm.trans hrej
      subst hreq
      simp only [exOf] at hsid
      obtain ⟨sid1, hcs, hne⟩ := hcand
      have hcontains : ([rej] : List Nat).contains sid1 = false := by
        rw [contains_singleton]
        simp [hne]
      have hres := acquire_not_excluded r [rej] st ⟨sid1, hcs, hcontains⟩
      intro heq
      rw [hsid] at heq
      rw [heq] at hres
      rw [contains_singleton] at hres
      simp at hres
  · intro r ex st hfree hlr hbind
    exact acquire_global_lru r ex st hfree hlr hbind

/-- Witness for C6 at concrete inputs: with slot 0 rejected (ratio 1/5 <
17/20) and slot 1 available, the cold outcome avoids slot 0; with every
candidate excluded, acquisition falls back to the global LRU slot. -/
theorem claim_C6_rejected_slot_excluded_witness :
    ((ensure_slot_for_request (mkRat 17 20) [] "m" [] 0 "K2" "p2"
        ["a", "x", "y", "w", "v"] 16 true c6_state).2.sid ≠ 0) ∧
    (∃ b, ((acquire_free_or_cold_slot 7 [0] c6b_state).2.1, b) ∈ c6b_state.bindings ∧
      ∀ q ∈ c6b_state.bindings, b.last_use_ts ≤ q.2.last_use_ts) := by
  constructor
  · exact claim_C6_rejected_slot_excluded.1 (mkRat 17 20) [] "m" [] 0 "K2" "p2"
      ["a", "x", "y", "w", "v"] 16 true c6_state _ _ 0 rfl (Or.inl (by decide))
      (by decide) ⟨1, Or.inr ⟨⟨"K0", "p0", ["z"], 3, 16, false, false, none⟩, by decide⟩, by decide⟩
  · exact claim_C6_rejected_slot_excluded.2 7 [0] c6b_state (by decide) (by decide) (by decide)

/-- Claim C7: every accepted `active-lcp` or `restore-lcp` matching
satisfies the single similarity threshold over the spec's ratio
`lcp / min(|R|, |C|)`, where `C` is the accepted candidate's block-hash
sequence (whose length the result reports as `total`). -/
theorem claim_C7_accepted_ratio_meets_threshold :
    ∀ (τ : ℚ) (pinned_keys : List String) (model_id : String) (metas : List MetaRecord)
      (r : Nat) (req_key req_prefix_text : String) (req_blocks : List String) (wpb : Nat)
      (restore_ok : Bool) (st st2 : SMState) (res : EnsureResult),
      ensure_slot_for_request τ pinned_keys model_id metas r req_key req_prefix_text
          req_blocks wpb restore_ok st = (st2, res) →
      (res.outcome = "active-lcp" ∨ res.outcome = "restore-lcp") →
      τ ≤ (res.lcp : ℚ) / ((min req_blocks.length res.total : Nat) : ℚ) := by
  intro τ pk mid metas r k p req wpb ro st st2 res h ho
  unfold ensure_slot_for_request at h
  cases hap : activePhase τ r req wpb st with
  | taken st3 res3 =>
    rw [hap] at h
    have h2 : (st3, res3) = (st2, res) := h
    cases h2
    rcases ho with hlcp | hres
    · exact activePhase_lcp_ratio hap hlcp
    · rcases activePhase_taken_outcome hap with he | hl
      · have hcontra : ("active-exact" : String) = "restore-lcp" := he.symm.trans hres
        exact absurd hcontra (by decide)
      · have hcontra : ("active-lcp" : String) = "restore-lcp" := hl.symm.trans hres
        exact absurd hcontra (by decide)
  | pass rejected =>
    rw [hap] at h
    have h2 : ensureTail τ pk mid metas r k p req wpb ro rejected st = (st2, res) := h
    rcases ho with hlcp | hres
    · rcases ensureTail_outcomes τ pk mid metas r k p req wpb ro rejected st with hc | hr
      · rw [h2] at hc
        have hcontra : ("cold" : String) = "active-lcp" := hc.symm.trans hlcp
        exact absurd hcontra (by decide)
      · rw [h2] at hr
        have hcontra : ("restore-lcp" : String) = "active-lcp" := hr.symm.trans hlcp
        exact absurd hcontra (by decide)
    · exact ensureTail_restore_ratio h2 hres

/-- Witness for C7 at a concrete input: the `active-lcp` acceptance at
lcp 3 of min(4, 4) blocks meets the threshold 3/4. -/
theorem claim_C7_accepted_ratio_meets_threshold_witness :
    mkRat 3 4 ≤
      (((ensure_slot_for_request (mkRat 3 4) [] "m" [] 0 "K2" "p2"
          ["a", "b", "c", "x"] 16 true c7_state).2.lcp : ℚ) /
        ((min (["a", "b", "c", "x"] : List String).length
          (ensure_slot_for_request (mkRat 3 4) [] "m" [] 0 "K2" "p2"
            ["a", "b", "c", "x"] 16 true c7_state).2.total : Nat) : ℚ)) :=
  claim_C7_accepted_ratio_meets_threshold (mkRat 3 4) [] "m" [] 0 "K2" "p2"
    ["a", "b", "c", "x"] 16 true c7_state _ _ rfl (Or.inl (by decide))

/-- Claim C8, counterexample: the claim says a request with an empty
block-hash sequence always gets outcome `cold`.  But after one empty big
request cold-binds a slot (leaving a hot binding with an empty block list),
a second empty request matches it exactly and gets `active-exact`. -/
theorem claim_C8_empty_counterexample :
    (ensure_slot_for_request (mkRat 17 20) [] "m" [] 0 "KE" "" [] 16 true
        oneSlotEmpty).2.outcome = "cold" ∧
    (ensure_slot_for_request (mkRat 17 20) [] "m" [] 1 "KE" "" [] 16 true
        c8_state).2.outcome = "active-exact" := by
  decide

/-- Claim C8, amended: a request with an empty block-hash sequence never
matches via `active-lcp` or `restore-lcp`; its outcome is `cold`, except
that it matches `active-exact` when some eligible hot slot also has an
empty block-hash sequence. -/
theorem claim_C8_empty_request_cold_or_exact :
    ∀ (τ : ℚ) (pinned_keys : List String) (model_id : String) (metas : List MetaRecord)
      (r : Nat) (req_key req_prefix_text : String) (wpb : Nat) (restore_ok : Bool)
      (st st2 : SMState) (res : EnsureResult),
      ensure_slot_for_request τ pinned_keys model_id metas r req_key req_prefix_text
          [] wpb restore_ok st = (st2, res) →
      (res.outcome ≠ "active-lcp" ∧ res.outcome ≠ "restore-lcp") ∧
      (res.outcome = "cold" ∨
        (res.outcome = "active-exact" ∧
          ∃ sid b, (sid, b) ∈ st.bindings ∧ b.hot = true ∧ b.words_per_block = wpb ∧
            b.block_hashes = [])) := by
  intro τ pk mid metas r k p wpb ro st st2 res h
  unfold ensure_slot_for_request at h
  rcases activePhase_nil τ r wpb st with ⟨st3, res3, hap, hout, hex⟩ | hap
  · rw [hap] at h
    have h2 : (st3, res3) = (st2, res) := h
    cases h2
    refine ⟨⟨?_, ?_⟩, Or.inr ⟨hout, hex⟩⟩
    · intro hc
      exact absurd (hout.symm.trans hc) (by decide)
    · intro hc
      exact absurd (hout.symm.trans hc) (by decide)
  · rw [hap] at h
    have h2 : ensureTail τ pk mid metas r k p [] wpb ro none st = (st2, res) := h
    have hcold := ensureTail_nil_outcome τ pk mid metas r k p wpb ro none st
    rw [h2] at hcold
    refine ⟨⟨?_, ?_⟩, Or.inl hcold⟩
    · intro hc
      exact absurd (hcold.symm.trans hc) (by decide)
    · intro hc
      exact absurd (hcold.symm.trans hc) (by decide)

/-- Witness for the amended C8 at a concrete input: an empty request on the
empty one-slot manager is neither `active-lcp` nor `restore-lcp`, and is
cold or an exact match of an empty hot slot. -/
theorem claim_C8_empty_request_cold_or_exact_witness :
    (((ensure_slot_for_request (mkRat 17 20) [] "m" [] 0 "KE" "" [] 16 true
        oneSlotEmpty).2.outcome ≠ "active-lcp" ∧
      (ensure_slot_for_request (mkRat 17 20) [] "m" [] 0 "KE" "" [] 16 true
        oneSlotEmpty).2.outcome ≠ "restore-lcp") ∧
     ((ensure_slot_for_request (mkRat 17 20) [] "m" [] 0 "KE" "" [] 16 true
        oneSlotEmpty).2.outcome = "cold" ∨
       ((ensure_slot_for_request (mkRat 17 20) [] "m" [] 0 "KE" "" [] 16 true
          oneSlotEmpty).2.outcome = "active-exact" ∧
        ∃ sid b, (sid, b) ∈ oneSlotEmpty.bindings ∧ b.hot = true ∧
          b.words_per_block = 16 ∧ b.block_hashes = []))) :=
  claim_C8_empty_request_cold_or_exact (mkRat 17 20) [] "m" [] 0 "KE" "" 16 true
    oneSlotEmpty _ _ rfl

/-- Claim C9: an absent, non-integer, or out-of-range (outside 1..2048)
block-size header/query value silently falls back to the configured
default, so the effective block size is always either within 1..2048 or
equal to the default. -/
theorem claim_C9_block_size_sanitized :
    ∀ (v : Option (Option Int)) (dflt : Int),
      ((v = none ∨ v = some none ∨
          ∃ n, v = some (some n) ∧ (n < 1 ∨ 2048 < n)) →
        resolve_block_size v dflt = dflt) ∧
      (resolve_block_size v dflt = dflt ∨
        (1 ≤ resolve_block_size v dflt ∧ resolve_block_size v dflt ≤ 2048)) := by
  intro v dflt
  constructor
  · intro hbad
    rcases hbad with hnone | hsn | ⟨n, hv, hrange⟩
    · rw [hnone]
      rfl
    · rw [hsn]
      rfl
    · rw [hv]
      show (if 1 ≤ n ∧ n ≤ 2048 then n else dflt) = dflt
      have hnc : ¬(1 ≤ n ∧ n ≤ 2048) := by
        rcases hrange with h1 | h2 <;> omega
      rw [if_neg hnc]
  · rcases v with _ | w
    · exact Or.inl rfl
    · rcases w with _ | n
      · exact Or.inl rfl
      · show (if 1 ≤ n ∧ n ≤ 2048 then n else dflt) = dflt ∨
          (1 ≤ (if 1 ≤ n ∧ n ≤ 2048 then n else dflt) ∧
            (if 1 ≤ n ∧ n ≤ 2048 then n else dflt) ≤ 2048)
        by_cases hr : 1 ≤ n ∧ n ≤ 2048
        · rw [if_pos hr]
          exact Or.inr hr
        · rw [if_neg hr]
          exact Or.inl rfl

/-- Witness for C9 at concrete inputs: the out-of-range value 5000 falls
back to the default 16, and the in-range value 32 is used as is. -/
theorem claim_C9_block_size_sanitized_witness :
    resolve_block_size (some (some 5000)) 16 = 16 ∧
    (resolve_block_size (some (some 32)) 16 = 16 ∨
      (1 ≤ resolve_block_size (some (some 32)) 16 ∧
        resolve_block_size (some (some 32)) 16 ≤ 2048)) :=
  ⟨(claim_C9_block_size_sanitized (some (some 5000)) 16).1
      (Or.inr (Or.inr ⟨5000, rfl, Or.inr (by decide)⟩)),
   (claim_C9_block_size_sanitized (some (some 32)) 16).2⟩

/-- Claim C10: the similarity-ratio denominator used at every ratio site
(`ensure_slot_for_request`'s active and restore checks and
`find_best_restore_candidate`) is `max(1, min(|R|, |C|))`, which is always
positive, so the ratio computation is total even on empty block sequences;
the concrete conjunct runs the disk-candidate search through the
`min = 0` corner. -/
theorem claim_C10_ratio_denominator_total :
    (∀ R C : List String,
      1 ≤ ratio_denom R.length C.length ∧
      ((ratio_denom R.length C.length : Nat) : ℚ) ≠ 0) ∧
    find_best_restore_candidate [] 16 (mkRat 1 2) "m" [⟨"k", "m", 16, []⟩] = none := by
  constructor
  · intro R C
    constructor
    · unfold ratio_denom
      omega
    · have hpos : ratio_denom R.length C.length ≠ 0 := by
        unfold ratio_denom
        omega
      exact_mod_cast hpos
  · decide

end ProxyCache
